import Mathlib

/-!
# A line-oriented TCP echo server (`main.go`)

Shallow embedding of the two functions of `main.go`:

* `handleConnection` : the per-connection read/echo loop, with the deferred
  `conn.Close()`;
* `main` : argument check, `net.Listen`, and the accept loop that starts one
  goroutine per accepted connection.

The environment (peer, kernel, standard output) is made explicit.  A connection
is the finite byte sequence the peer sends, the error the reader reports once
those bytes are used up, and the outcome of every `Write` call.  Each function
produces the trace of the operations it performs, in program order.  The
`for` loop of `handleConnection` takes a bound on the number of iterations;
`none` means that the bound was reached before the loop returned.
-/

namespace EchoServer

/-- One octet, the element type of a Go byte slice or string. -/
abbrev Byte := UInt8

/-- The bytes of a Go string literal (Go source text is UTF-8). -/
def bytesOf (s : String) : List Byte := s.toUTF8.data.toList

/-- Error values the program can meet: `io.EOF`, the error of an operation on
a closed listener or connection (`net.ErrClosed`), and any other error,
given by its message. -/
inductive GoError
  | EOF
  | ErrClosed
  | other (msg : String)
deriving DecidableEq, Repr

/-- The `Error()` text of an error value. -/
def GoError.Error : GoError → List Byte
  | GoError.EOF => bytesOf "EOF"
  | GoError.ErrClosed => bytesOf "use of closed network connection"
  | GoError.other msg => bytesOf msg

/-- The scanner behind `fmt.Sprintf`: `verb` tells that the byte before was a
`%` that starts a verb.  An operand is given by the bytes the verb `%s` emits
for it (the bytes of a slice or string, `Error()` of an error, `String()` of
an address): they are copied without interpretation.  `%%` emits a percent
sign, `%s` without an operand emits `%!s(MISSING)`, a `%` that ends the format
emits `%!(NOVERB)`.  The other verbs do not occur in `main.go`; they are
copied as they stand. -/
def sprintfScan : Bool → List Byte → List (List Byte) → List Byte
  | false, [], _ => []
  | true, [], _ => bytesOf "%!(NOVERB)"
  | false, b :: fmt, args =>
    if b = 37 then sprintfScan true fmt args else b :: sprintfScan false fmt args
  | true, b :: fmt, args =>
    if b = 115 then
      match args with
      | a :: rest => a ++ sprintfScan false fmt rest
      | [] => bytesOf "%!s(MISSING)" ++ sprintfScan false fmt []
    else if b = 37 then 37 :: sprintfScan false fmt args
    else 37 :: b :: sprintfScan false fmt args

/-- The text `fmt.Sprintf` and `fmt.Printf` produce for a format and its
operands. -/
def Sprintf (format : List Byte) (args : List (List Byte)) : List Byte :=
  sprintfScan false format args

/-- The text `fmt.Println` produces: the operands separated by one space,
followed by a newline.  An operand is given by its default rendering. -/
def Println : List (List Byte) → List Byte
  | [] => [10]
  | [a] => a ++ [10]
  | a :: b :: rest => a ++ 32 :: Println (b :: rest)

/-- The scan of `bufio.Reader.ReadBytes(delim)` over the bytes still to come:
the bytes up to and including the first `delim`, and what follows it; when
there is no `delim`, all the bytes and `none`. -/
def readUntil (delim : Byte) : List Byte → List Byte × Option (List Byte)
  | [] => ([], none)
  | b :: bs =>
    if b = delim then ([b], some bs)
    else ((b :: (readUntil delim bs).1), (readUntil delim bs).2)

/-- The result of `reader.ReadBytes(delim)` when `buf` is what the peer still
sends and `err` is what the connection reports after it: the line read, no
error and the bytes left; or, without a delimiter, the bytes read before the
error, and the error. -/
def ReadBytes (delim : Byte) (buf : List Byte) (err : GoError) :
    List Byte × Option GoError × List Byte :=
  match readUntil delim buf with
  | (line, some rest) => (line, none, rest)
  | (data, none) => (data, some err, [])

/-- A connection as `handleConnection` sees it. -/
structure Conn where
  /-- The bytes the peer sends before its side of the stream ends. -/
  input : List Byte
  /-- What a read reports once `input` is used up (`io.EOF` after an orderly
  shutdown by the peer). -/
  readErr : GoError
  /-- The error returned by the `k`-th call of `conn.Write` (counted from 0)
  for the given payload; `none` when the write succeeds. -/
  writeErr : Nat → List Byte → Option GoError

/-- What `handleConnection` does, in program order. -/
inductive Event
  /-- The call `reader.ReadBytes('\n')` returned `(data, err)`. -/
  | read (data : List Byte) (err : Option GoError)
  /-- Text printed on standard output. -/
  | stdout (text : List Byte)
  /-- The call `conn.Write(data)` returned the error `err`. -/
  | write (data : List Byte) (err : Option GoError)
  /-- The call `conn.Close()`. -/
  | close
deriving DecidableEq, Repr

/-- The events of one iteration of the loop up to the call of `conn.Write`:
the read, and the two `Printf` lines (lines 53 to 64). -/
def beforeWrite (bytes : List Byte) : List Event :=
  [Event.read bytes none,
   Event.stdout (Sprintf (bytesOf "request: %s") [bytes]),
   Event.stdout (Sprintf (bytesOf "response: %s") [Sprintf (bytesOf "Echo: %s") [bytes]])]

/-- The `for` loop of `handleConnection` (lines 51 to 74).  `buf` is the input
not yet consumed by the reader, `k` the number of `Write` calls made so far;
the first argument bounds the number of iterations. -/
def handleLoop (c : Conn) : Nat → List Byte → Nat → Option (List Event)
  | 0, _, _ => none
  | fuel + 1, buf, k =>
    match ReadBytes 10 buf c.readErr with
    | (bytes, some err, _) =>
      if err ≠ GoError.EOF then
        some [Event.read bytes (some err),
              Event.stdout (Println [bytesOf "failed to read data, err:", err.Error])]
      else
        some [Event.read bytes (some err)]
    | (bytes, none, rest) =>
      let line := Sprintf (bytesOf "Echo: %s") [bytes]
      match c.writeErr k line with
      | some err =>
        some (beforeWrite bytes ++
          [Event.write line (some err),
           Event.stdout (Println [bytesOf "failed to write data, err:", err.Error])])
      | none =>
        (handleLoop c fuel rest (k + 1)).map (fun t =>
          beforeWrite bytes ++
            [Event.write line none,
             Event.stdout (Println [bytesOf "response sent successfully"])] ++ t)

/-- The function `handleConnection`: the loop over the input of the
connection, then the deferred `conn.Close()` when the function returns. -/
def handleConnection (c : Conn) (fuel : Nat) : Option (List Event) :=
  (handleLoop c fuel c.input 0).map (fun t => t ++ [Event.close])

/-- The outcome of one call of `listener.Accept()`: a new connection, named by
a number, or an error. -/
inductive AcceptResult
  | conn (id : Nat)
  | error (err : GoError)
deriving DecidableEq, Repr

/-- The outcome of `net.Listen`: a listener, given by the text of its address,
or an error. -/
inductive ListenResult
  | ok (addr : List Byte)
  | error (err : GoError)
deriving DecidableEq, Repr

/-- What `main` does, in program order. -/
inductive MainEvent
  /-- Text printed on standard output. -/
  | stdout (text : List Byte)
  /-- The call `net.Listen(network, address)`. -/
  | listen (network address : List Byte)
  /-- The call `listener.Accept()` returned `r`. -/
  | accept (r : AcceptResult)
  /-- The statement `go handleConnection(conn)`. -/
  | go (conn : Nat)
  /-- The call `os.Exit(code)`. -/
  | exit (code : Nat)
deriving DecidableEq, Repr

/-- The accept loop of `main` (lines 32 to 41), run while `listener.Accept()`
returns the given outcomes in turn.  Both branches of the body lead to the
next iteration: the loop has no `break` and no `return`. -/
def acceptLoop : List AcceptResult → List MainEvent
  | [] => []
  | AcceptResult.error err :: rs =>
    MainEvent.accept (AcceptResult.error err) ::
      MainEvent.stdout (Println [bytesOf "failed to accept connection, err:", err.Error]) ::
      acceptLoop rs
  | AcceptResult.conn id :: rs =>
    MainEvent.accept (AcceptResult.conn id) :: MainEvent.go id :: acceptLoop rs

/-- The function `main`.  `args` is `os.Args` (the program name first),
`listen` the outcome of `net.Listen` for a network and an address, `accepts`
the outcomes of the successive calls of `listener.Accept()`.  `os.Exit` ends
the process: nothing follows it.  The deferred `listener.Close()` (line 27)
runs when `main` returns, which no path of the function does: it leaves no
event. -/
def main (args : List (List Byte)) (listen : List Byte → List Byte → ListenResult)
    (accepts : List AcceptResult) : List MainEvent :=
  if args.length < 2 then
    [MainEvent.stdout (Println [bytesOf "Usage: go run main.go <port>"]), MainEvent.exit 1]
  else
    let port := Sprintf (bytesOf ":%s") [args.getD 1 []]
    match listen (bytesOf "tcp") port with
    | ListenResult.error err =>
      [MainEvent.listen (bytesOf "tcp") port,
       MainEvent.stdout (Println [bytesOf "failed to create listener, err:", err.Error]),
       MainEvent.exit 1]
    | ListenResult.ok addr =>
      MainEvent.listen (bytesOf "tcp") port ::
        MainEvent.stdout (Sprintf (bytesOf "Listening on port %s...\n") [addr]) ::
        acceptLoop accepts

/-! ## Observations on traces -/

/-- The payloads of the `conn.Write` calls of a trace, in order. -/
def writesOf : List Event → List (List Byte)
  | [] => []
  | Event.write data _ :: t => data :: writesOf t
  | _ :: t => writesOf t

/-- The number of `ReadBytes` calls of a trace: the number of iterations of
the loop. -/
def readsOf : List Event → Nat
  | [] => 0
  | Event.read _ _ :: t => readsOf t + 1
  | _ :: t => readsOf t

/-- The operations on the connection itself: reads, writes and the close. -/
def connOps (t : List Event) : List Event :=
  t.filter (fun e => match e with
    | Event.stdout _ => false
    | _ => true)

/-- The connections for which `main` started a handler, in order. -/
def dispatched : List MainEvent → List Nat
  | [] => []
  | MainEvent.go id :: t => id :: dispatched t
  | _ :: t => dispatched t

/-- The outcomes of the `Accept` calls of a trace of `main`, in order. -/
def acceptCalls : List MainEvent → List AcceptResult
  | [] => []
  | MainEvent.accept r :: t => r :: acceptCalls t
  | _ :: t => acceptCalls t

/-- The texts `main` printed on standard output, in order. -/
def printed : List MainEvent → List (List Byte)
  | [] => []
  | MainEvent.stdout text :: t => text :: printed t
  | _ :: t => printed t

/-- The bytes a peer sends for the lines `ls`, each given without its
newline. -/
def sendLines : List (List Byte) → List Byte
  | [] => []
  | l :: ls => l ++ 10 :: sendLines ls

/-- The response to a line: the six bytes of `Echo: ` and then the line. -/
def echoOf (line : List Byte) : List Byte := bytesOf "Echo: " ++ line

/-- The events of one full iteration of the loop for the line `line` when its
write succeeds. -/
def echoRound (line : List Byte) : List Event :=
  beforeWrite line ++
    [Event.write (echoOf line) none,
     Event.stdout (Println [bytesOf "response sent successfully"])]

/-! ## The reader and the formatter -/

theorem readUntil_line (body rest : List Byte) (h : (10 : Byte) ∉ body) :
    readUntil 10 (body ++ 10 :: rest) = (body ++ [10], some rest) := by
  induction body with
  | nil => simp [readUntil]
  | cons b bs ih =>
    simp only [List.mem_cons, not_or] at h
    have hb : b ≠ 10 := fun e => h.1 e.symm
    simp [readUntil, hb, ih h.2]

theorem readUntil_none (p : List Byte) (h : (10 : Byte) ∉ p) :
    readUntil 10 p = (p, none) := by
  induction p with
  | nil => simp [readUntil]
  | cons b bs ih =>
    simp only [List.mem_cons, not_or] at h
    have hb : b ≠ 10 := fun e => h.1 e.symm
    simp [readUntil, hb, ih h.2]

theorem echo_bytes : bytesOf "Echo: " = [69, 99, 104, 111, 58, 32] := by decide

theorem Sprintf_echo (x : List Byte) : Sprintf (bytesOf "Echo: %s") [x] = echoOf x := by
  have h : Sprintf (bytesOf "Echo: %s") [x] = [69, 99, 104, 111, 58, 32] ++ (x ++ []) := rfl
  rw [h, echoOf, echo_bytes, List.append_nil]

theorem handleLoop_line (c : Conn) (fuel k : Nat) (body rest : List Byte)
    (h : (10 : Byte) ∉ body) :
    handleLoop c (fuel + 1) (body ++ 10 :: rest) k =
      match c.writeErr k (echoOf (body ++ [10])) with
      | some err =>
        some (beforeWrite (body ++ [10]) ++
          [Event.write (echoOf (body ++ [10])) (some err),
           Event.stdout (Println [bytesOf "failed to write data, err:", err.Error])])
      | none => (handleLoop c fuel rest (k + 1)).map (fun t => echoRound (body ++ [10]) ++ t) := by
  simp only [handleLoop, ReadBytes, readUntil_line body rest h, Sprintf_echo, echoRound]

theorem handleLoop_frag (c : Conn) (fuel k : Nat) (p : List Byte) (h : (10 : Byte) ∉ p) :
    handleLoop c (fuel + 1) p k =
      if c.readErr ≠ GoError.EOF then
        some [Event.read p (some c.readErr),
              Event.stdout (Println [bytesOf "failed to read data, err:", c.readErr.Error])]
      else some [Event.read p (some c.readErr)] := by
  simp only [handleLoop, ReadBytes, readUntil_none p h]

theorem Sprintf_request (x : List Byte) :
    Sprintf (bytesOf "request: %s") [x] = bytesOf "request: " ++ x := by
  have h : Sprintf (bytesOf "request: %s") [x] = bytesOf "request: " ++ (x ++ []) := rfl
  rw [h, List.append_nil]

theorem Sprintf_response (x : List Byte) :
    Sprintf (bytesOf "response: %s") [echoOf x] = bytesOf "response: Echo: " ++ x := by
  have h : Sprintf (bytesOf "response: %s") [echoOf x]
      = bytesOf "response: Echo: " ++ (x ++ []) := rfl
  rw [h, List.append_nil]

theorem echoRound_eq (line : List Byte) :
    echoRound line =
      [Event.read line none,
       Event.stdout (bytesOf "request: " ++ line),
       Event.stdout (bytesOf "response: Echo: " ++ line),
       Event.write (bytesOf "Echo: " ++ line) none,
       Event.stdout (bytesOf "response sent successfully\n")] := by
  have h : Println [bytesOf "response sent successfully"]
      = bytesOf "response sent successfully\n" := by decide
  simp only [echoRound, beforeWrite, Sprintf_echo, Sprintf_request, Sprintf_response, h]
  rfl

/-- Every input either has no newline, or starts with a line: bytes without a
newline followed by a newline. -/
theorem line_or_frag (buf : List Byte) :
    (10 : Byte) ∉ buf ∨ ∃ body rest, (10 : Byte) ∉ body ∧ buf = body ++ 10 :: rest := by
  induction buf with
  | nil => exact Or.inl (by simp)
  | cons b bs ih =>
    by_cases hb : b = 10
    · exact Or.inr ⟨[], bs, by simp, by simp [hb]⟩
    · rcases ih with h | ⟨body, rest, h, e⟩
      · exact Or.inl (by simp [h, Ne.symm hb])
      · exact Or.inr ⟨b :: body, rest, by simp [h, Ne.symm hb], by simp [e]⟩

/-- The four ways one iteration of the loop can go. -/
theorem handleLoop_cases (c : Conn) (fuel k : Nat) (buf : List Byte) (t : List Event)
    (h : handleLoop c (fuel + 1) buf k = some t) :
    (c.readErr = GoError.EOF ∧ (10 : Byte) ∉ buf ∧ t = [Event.read buf (some GoError.EOF)]) ∨
    (c.readErr ≠ GoError.EOF ∧ (10 : Byte) ∉ buf ∧
      t = [Event.read buf (some c.readErr),
           Event.stdout (Println [bytesOf "failed to read data, err:", c.readErr.Error])]) ∨
    (∃ body rest err, (10 : Byte) ∉ body ∧ buf = body ++ 10 :: rest ∧
      c.writeErr k (echoOf (body ++ [10])) = some err ∧
      t = beforeWrite (body ++ [10]) ++
        [Event.write (echoOf (body ++ [10])) (some err),
         Event.stdout (Println [bytesOf "failed to write data, err:", err.Error])]) ∨
    (∃ body rest u, (10 : Byte) ∉ body ∧ buf = body ++ 10 :: rest ∧
      c.writeErr k (echoOf (body ++ [10])) = none ∧
      handleLoop c fuel rest (k + 1) = some u ∧ t = echoRound (body ++ [10]) ++ u) := by
  rcases line_or_frag buf with hf | ⟨body, rest, hb, e⟩
  · rw [handleLoop_frag c fuel k buf hf] at h
    by_cases he : c.readErr = GoError.EOF
    · left
      simp only [he, ne_eq, not_true_eq_false, if_false, Option.some.injEq] at h
      exact ⟨he, hf, h.symm⟩
    · right; left
      simp only [ne_eq, he, not_false_eq_true, if_true, Option.some.injEq] at h
      exact ⟨he, hf, h.symm⟩
  · subst e
    rw [handleLoop_line c fuel k body rest hb] at h
    cases hw : c.writeErr k (echoOf (body ++ [10])) with
    | some err =>
      right; right; left
      rw [hw] at h
      simp only [Option.some.injEq] at h
      exact ⟨body, rest, err, hb, rfl, hw, h.symm⟩
    | none =>
      right; right; right
      rw [hw] at h
      cases hu : handleLoop c fuel rest (k + 1) with
      | none => rw [hu] at h; simp at h
      | some u =>
        rw [hu] at h
        simp only [Option.map_some', Option.some.injEq] at h
        exact ⟨body, rest, u, hb, rfl, hw, hu, h.symm⟩

/-! ## The claims on `handleConnection` -/

/-- C1: when the input still to come starts with a line `body ++ [10]` whose
only newline is its last byte, whatever the other bytes are, and the write
succeeds, the iteration of the loop of `handleConnection` reads that line,
writes exactly the six bytes of `Echo: ` followed by the line, of length
`len + 6`, and loops on what follows the line. -/
theorem handleLoop_echoes_line (c : Conn) (fuel k : Nat) (body rest : List Byte)
    (hbody : (10 : Byte) ∉ body)
    (hw : c.writeErr k (bytesOf "Echo: " ++ (body ++ [10])) = none) :
    handleLoop c (fuel + 1) (body ++ [10] ++ rest) k =
      (handleLoop c fuel rest (k + 1)).map (fun t =>
        [Event.read (body ++ [10]) none,
         Event.stdout (bytesOf "request: " ++ (body ++ [10])),
         Event.stdout (bytesOf "response: Echo: " ++ (body ++ [10])),
         Event.write (bytesOf "Echo: " ++ (body ++ [10])) none,
         Event.stdout (bytesOf "response sent successfully\n")] ++ t)
    ∧ bytesOf "Echo: " = [69, 99, 104, 111, 58, 32]
    ∧ (bytesOf "Echo: " ++ (body ++ [10])).length = (body ++ [10]).length + 6 := by
  refine ⟨?_, echo_bytes, ?_⟩
  · have e : body ++ [10] ++ rest = body ++ 10 :: rest := by simp
    rw [e, handleLoop_line c fuel k body rest hbody]
    have hw2 : c.writeErr k (echoOf (body ++ [10])) = none := hw
    rw [hw2]
    simp only [echoRound_eq]
  · rw [echo_bytes]
    simp only [List.length_append, List.length_cons, List.length_nil]
    omega

/-- Witness of C1: the line `%s\n` followed by one more byte. -/
theorem handleLoop_echoes_line_witness :
    (10 : Byte) ∉ [37, 115] ∧
    handleLoop ⟨[37, 115, 10, 0], GoError.EOF, fun _ _ => none⟩ 2 [37, 115, 10, 0] 0 =
      some [Event.read [37, 115, 10] none,
            Event.stdout (bytesOf "request: %s\n"),
            Event.stdout (bytesOf "response: Echo: %s\n"),
            Event.write [69, 99, 104, 111, 58, 32, 37, 115, 10] none,
            Event.stdout (bytesOf "response sent successfully\n"),
            Event.read [0] (some GoError.EOF)] :=
  ⟨by decide,
   (handleLoop_echoes_line ⟨[37, 115, 10, 0], GoError.EOF, fun _ _ => none⟩ 1 0 [37, 115] [0]
      (by decide) rfl).1⟩

/-- The loop over the lines `ls` when every write succeeds: one full round per
line, then the loop on what follows the lines. -/
theorem handleLoop_lines (c : Conn) (hw : ∀ k d, c.writeErr k d = none)
    (ls : List (List Byte)) (hls : ∀ l ∈ ls, (10 : Byte) ∉ l) (fuel k : Nat)
    (rest : List Byte) :
    handleLoop c (ls.length + fuel) (sendLines ls ++ rest) k =
      (handleLoop c fuel rest (k + ls.length)).map (fun t =>
        ls.flatMap (fun l => echoRound (l ++ [10])) ++ t) := by
  induction ls generalizing k with
  | nil => simp [sendLines]
  | cons l ls ih =>
    have hl : (10 : Byte) ∉ l := hls l (List.mem_cons_self l ls)
    have hrest : ∀ x ∈ ls, (10 : Byte) ∉ x := fun x hx => hls x (List.mem_cons_of_mem l hx)
    have e1 : (l :: ls).length + fuel = (ls.length + fuel) + 1 := by
      simp only [List.length_cons]; omega
    have e2 : sendLines (l :: ls) ++ rest = l ++ 10 :: (sendLines ls ++ rest) := by
      simp [sendLines]
    rw [e1, e2, handleLoop_line c _ k l _ hl, hw, ih hrest (k + 1)]
    have e3 : k + 1 + ls.length = k + (l :: ls).length := by
      simp only [List.length_cons]; omega
    rw [e3]
    cases handleLoop c fuel rest (k + (l :: ls).length) with
    | none => rfl
    | some u => simp [List.flatMap_cons, List.append_assoc]

theorem writesOf_append (s t : List Event) : writesOf (s ++ t) = writesOf s ++ writesOf t := by
  induction s with
  | nil => rfl
  | cons e s ih => cases e <;> simp [writesOf, ih]

theorem readsOf_append (s t : List Event) : readsOf (s ++ t) = readsOf s + readsOf t := by
  induction s with
  | nil => simp [readsOf]
  | cons e s ih =>
    cases e <;> simp [readsOf, ih]
    omega

theorem connOps_append (s t : List Event) : connOps (s ++ t) = connOps s ++ connOps t := by
  simp [connOps]

theorem writesOf_rounds (ls : List (List Byte)) :
    writesOf (ls.flatMap (fun l => echoRound (l ++ [10])))
      = ls.map (fun l => echoOf (l ++ [10])) := by
  induction ls with
  | nil => rfl
  | cons l ls ih =>
    rw [List.flatMap_cons, writesOf_append, ih, echoRound_eq]
    simp [writesOf, echoOf]

theorem connOps_rounds (ls : List (List Byte)) :
    connOps (ls.flatMap (fun l => echoRound (l ++ [10])))
      = ls.flatMap (fun l =>
          [Event.read (l ++ [10]) none, Event.write (echoOf (l ++ [10])) none]) := by
  induction ls with
  | nil => rfl
  | cons l ls ih =>
    rw [List.flatMap_cons, connOps_append, ih, echoRound_eq]
    simp [connOps, echoOf]

/-- C2: for every list of lines `ls` (each given without its newline) sent on
one connection and followed by end-of-stream, with every write succeeding,
`handleConnection` returns, and its trace is one round per line, in the order
received (read of the line, two log lines, the write of `Echo: ` followed by
the line, one log line), then the read that meets end-of-stream and the close.
So there are exactly as many writes as lines, the k-th being the echo of the
k-th line, and on the connection the write of response k stands between the
read of line k and the read of line k+1. -/
theorem handleConnection_echoes_lines (ls : List (List Byte))
    (w : Nat → List Byte → Option GoError) (fuel : Nat)
    (hls : ∀ l ∈ ls, (10 : Byte) ∉ l) (hw : ∀ k d, w k d = none)
    (hfuel : ls.length + 1 ≤ fuel) :
    ∃ t, handleConnection ⟨sendLines ls, GoError.EOF, w⟩ fuel = some t
      ∧ t = ls.flatMap (fun l =>
              [Event.read (l ++ [10]) none,
               Event.stdout (bytesOf "request: " ++ (l ++ [10])),
               Event.stdout (bytesOf "response: Echo: " ++ (l ++ [10])),
               Event.write (bytesOf "Echo: " ++ (l ++ [10])) none,
               Event.stdout (bytesOf "response sent successfully\n")])
            ++ [Event.read [] (some GoError.EOF), Event.close]
      ∧ writesOf t = ls.map (fun l => bytesOf "Echo: " ++ (l ++ [10]))
      ∧ (writesOf t).length = ls.length
      ∧ connOps t = ls.flatMap (fun l =>
              [Event.read (l ++ [10]) none,
               Event.write (bytesOf "Echo: " ++ (l ++ [10])) none])
            ++ [Event.read [] (some GoError.EOF), Event.close] := by
  obtain ⟨n, rfl⟩ : ∃ n, fuel = ls.length + (n + 1) := ⟨fuel - (ls.length + 1), by omega⟩
  have hrun : handleConnection ⟨sendLines ls, GoError.EOF, w⟩ (ls.length + (n + 1)) =
      some (ls.flatMap (fun l => echoRound (l ++ [10]))
        ++ [Event.read [] (some GoError.EOF), Event.close]) := by
    have h := handleLoop_lines ⟨sendLines ls, GoError.EOF, w⟩ hw ls hls (n + 1) 0 []
    rw [List.append_nil] at h
    simp only [handleConnection, h]
    rw [handleLoop_frag _ n _ [] (by simp)]
    simp
  refine ⟨_, hrun, ?_, ?_, ?_, ?_⟩
  · simp only [echoRound_eq]
  · rw [writesOf_append, writesOf_rounds]
    simp [writesOf, echoOf]
  · rw [writesOf_append, writesOf_rounds]
    simp [writesOf]
  · rw [connOps_append, connOps_rounds]
    simp [connOps, echoOf]

/-- Witness of C2: the same line sent twice. -/
theorem handleConnection_echoes_lines_witness :
    (∀ l ∈ [[104, 105], [104, 105]], (10 : Byte) ∉ l) ∧
    ∃ t, handleConnection ⟨sendLines [[104, 105], [104, 105]], GoError.EOF, fun _ _ => none⟩ 3
        = some t
      ∧ writesOf t = [bytesOf "Echo: hi\n", bytesOf "Echo: hi\n"] :=
  ⟨by decide,
   (handleConnection_echoes_lines [[104, 105], [104, 105]] (fun _ _ => none) 3
      (by decide) (fun _ _ => rfl) (by decide)).imp (fun _ h => ⟨h.1, h.2.2.1⟩)⟩

theorem readsOf_echoRound (line : List Byte) : readsOf (echoRound line) = 1 := by
  simp [echoRound_eq, readsOf]

theorem writesOf_echoRound (line : List Byte) : writesOf (echoRound line) = [echoOf line] := by
  simp [echoRound_eq, writesOf, echoOf]

/-- The loop over lines followed by bytes without a newline, whatever the
writes do: it returns, and its writes are the echoes of the first lines. -/
theorem handleLoop_lines_frag (c : Conn) (ls : List (List Byte))
    (hls : ∀ l ∈ ls, (10 : Byte) ∉ l) (frag : List Byte) (hfrag : (10 : Byte) ∉ frag)
    (fuel k : Nat) (hfuel : ls.length + 1 ≤ fuel) :
    ∃ t, handleLoop c fuel (sendLines ls ++ frag) k = some t
      ∧ writesOf t <+: ls.map (fun l => echoOf (l ++ [10])) := by
  induction ls generalizing fuel k with
  | nil =>
    obtain ⟨n, rfl⟩ : ∃ n, fuel = n + 1 := ⟨fuel - 1, by simp at hfuel; omega⟩
    simp only [sendLines, List.nil_append]
    rw [handleLoop_frag c n k frag hfrag]
    by_cases he : c.readErr = GoError.EOF
    · rw [if_neg (not_not.mpr he)]
      exact ⟨_, rfl, by simp [writesOf]⟩
    · rw [if_pos he]
      exact ⟨_, rfl, by simp [writesOf]⟩
  | cons l ls ih =>
    have hl : (10 : Byte) ∉ l := hls l (List.mem_cons_self l ls)
    have hrest : ∀ x ∈ ls, (10 : Byte) ∉ x := fun x hx => hls x (List.mem_cons_of_mem l hx)
    obtain ⟨n, rfl⟩ : ∃ n, fuel = n + 1 := ⟨fuel - 1, by simp at hfuel; omega⟩
    have e2 : sendLines (l :: ls) ++ frag = l ++ 10 :: (sendLines ls ++ frag) := by
      simp [sendLines]
    rw [e2, handleLoop_line c n k l _ hl]
    cases hw : c.writeErr k (echoOf (l ++ [10])) with
    | some err =>
      refine ⟨_, rfl, ?_⟩
      simp [beforeWrite, writesOf]
    | none =>
      obtain ⟨u, hu, hpre⟩ := ih hrest n (k + 1) (by simp at hfuel; omega)
      refine ⟨echoRound (l ++ [10]) ++ u, by simp [hu], ?_⟩
      rw [writesOf_append, writesOf_echoRound]
      simpa using hpre

/-- C3: when what remains of the input is a sequence `frag` without a newline
(non-empty or not), followed by end-of-stream, the loop of `handleConnection` returns
after the single read that meets end-of-stream: it writes nothing for `frag`.
For a whole connection whose input is some lines followed by `frag`,
`handleConnection` returns, the payloads it writes are echoes of the first
complete lines only, and the close ends the trace. -/
theorem handleConnection_unterminated_not_echoed (c : Conn) (frag : List Byte)
    (hfrag : (10 : Byte) ∉ frag) (heof : c.readErr = GoError.EOF) (n k : Nat) :
    handleLoop c (n + 1) frag k = some [Event.read frag (some GoError.EOF)]
    ∧ ∀ ls : List (List Byte), (∀ l ∈ ls, (10 : Byte) ∉ l) →
        c.input = sendLines ls ++ frag →
        ∃ t, handleConnection c (ls.length + 1 + n) = some t
          ∧ writesOf t <+: ls.map (fun l => bytesOf "Echo: " ++ (l ++ [10]))
          ∧ t.getLast? = some Event.close := by
  constructor
  · rw [handleLoop_frag c n k frag hfrag]
    simp [heof]
  · intro ls hls hin
    obtain ⟨u, hu, hpre⟩ :=
      handleLoop_lines_frag c ls hls frag hfrag (ls.length + 1 + n) 0 (by omega)
    refine ⟨u ++ [Event.close], by simp [handleConnection, hin, hu], ?_, by simp⟩
    rw [writesOf_append]
    simpa [writesOf, echoOf] using hpre

/-- Witness of C3: one complete line, then `x` without a newline. -/
theorem handleConnection_unterminated_not_echoed_witness :
    handleConnection ⟨[104, 105, 10, 120], GoError.EOF, fun _ _ => none⟩ 2
      = some [Event.read [104, 105, 10] none,
              Event.stdout (bytesOf "request: hi\n"),
              Event.stdout (bytesOf "response: Echo: hi\n"),
              Event.write (bytesOf "Echo: hi\n") none,
              Event.stdout (bytesOf "response sent successfully\n"),
              Event.read [120] (some GoError.EOF),
              Event.close]
    ∧ handleLoop ⟨[104, 105, 10, 120], GoError.EOF, fun _ _ => none⟩ 1 [120] 1
      = some [Event.read [120] (some GoError.EOF)] :=
  ⟨by decide,
   (handleConnection_unterminated_not_echoed
      ⟨[104, 105, 10, 120], GoError.EOF, fun _ _ => none⟩ [120]
      (by decide) rfl 0 1).1⟩

/-- A larger bound on the iterations does not change what the loop returns. -/
theorem handleLoop_mono (c : Conn) (fuel m k : Nat) (buf : List Byte) (t : List Event)
    (h : handleLoop c fuel buf k = some t) : handleLoop c (fuel + m) buf k = some t := by
  induction fuel generalizing buf k t with
  | zero => simp [handleLoop] at h
  | succ f ih =>
    have e : f + 1 + m = (f + m) + 1 := by omega
    rw [e]
    rcases line_or_frag buf with hf | ⟨body, rest, hb, rfl⟩
    · rw [handleLoop_frag c _ k buf hf] at h ⊢
      exact h
    · rw [handleLoop_line c _ k body rest hb] at h ⊢
      cases hw : c.writeErr k (echoOf (body ++ [10])) with
      | some err => rw [hw] at h; exact h
      | none =>
        rw [hw] at h
        dsimp only at h ⊢
        cases hu : handleLoop c f rest (k + 1) with
        | none => rw [hu] at h; simp at h
        | some u =>
          rw [hu] at h
          rw [ih (k + 1) rest u hu]
          exact h

/-- The loop returns within one iteration per newline of the input, plus
one. -/
theorem handleLoop_terminates (c : Conn) (fuel k : Nat) (buf : List Byte)
    (hfuel : List.count (10 : Byte) buf + 1 ≤ fuel) :
    ∃ t, handleLoop c fuel buf k = some t ∧ readsOf t ≤ List.count (10 : Byte) buf + 1 := by
  induction fuel generalizing buf k with
  | zero => omega
  | succ f ih =>
    rcases line_or_frag buf with hf | ⟨body, rest, hb, rfl⟩
    · rw [handleLoop_frag c f k buf hf]
      by_cases he : c.readErr = GoError.EOF
      · rw [if_neg (not_not.mpr he)]
        exact ⟨_, rfl, by simp [readsOf]⟩
      · rw [if_pos he]
        exact ⟨_, rfl, by simp [readsOf]⟩
    · have hc : List.count (10 : Byte) (body ++ 10 :: rest) = List.count (10 : Byte) rest + 1 := by
        rw [List.count_append, List.count_eq_zero_of_not_mem hb, List.count_cons_self]
        omega
      rw [hc] at hfuel ⊢
      rw [handleLoop_line c f k body rest hb]
      cases hw : c.writeErr k (echoOf (body ++ [10])) with
      | some err =>
        refine ⟨_, rfl, ?_⟩
        simp [beforeWrite, readsOf]
      | none =>
        obtain ⟨u, hu, hr⟩ := ih (k + 1) rest (by omega)
        refine ⟨echoRound (body ++ [10]) ++ u, by simp [hu], ?_⟩
        rw [readsOf_append, readsOf_echoRound]
        omega

/-- C10: for every finite input, whatever error ends it and whatever the
writes do, `handleConnection` returns: a bound of one iteration per newline
byte of the input, plus one, is enough for the loop, every larger bound gives
the same trace, and the trace holds at most that many reads (one read per
iteration). -/
theorem handleConnection_terminates (c : Conn) (fuel : Nat)
    (hfuel : List.count (10 : Byte) c.input + 1 ≤ fuel) :
    ∃ t, handleConnection c (List.count (10 : Byte) c.input + 1) = some t
      ∧ handleConnection c fuel = some t
      ∧ readsOf t ≤ List.count (10 : Byte) c.input + 1 := by
  obtain ⟨u, hu, hr⟩ :=
    handleLoop_terminates c (List.count (10 : Byte) c.input + 1) 0 c.input (le_refl _)
  obtain ⟨m, rfl⟩ : ∃ m, fuel = List.count (10 : Byte) c.input + 1 + m :=
    ⟨fuel - (List.count (10 : Byte) c.input + 1), by omega⟩
  refine ⟨u ++ [Event.close], by simp [handleConnection, hu], ?_, ?_⟩
  · simp [handleConnection, handleLoop_mono c _ m 0 c.input u hu]
  · rw [readsOf_append]
    simp only [readsOf]
    omega

/-- Witness of C10: two newlines, a failing second write, a read error at the
end of the input. -/
theorem handleConnection_terminates_witness :
    List.count (10 : Byte) [97, 10, 98, 10, 99] + 1 ≤ 7 ∧
    ∃ t, handleConnection ⟨[97, 10, 98, 10, 99], GoError.other "reset",
          fun k _ => if k = 1 then some GoError.ErrClosed else none⟩ 3 = some t
      ∧ handleConnection ⟨[97, 10, 98, 10, 99], GoError.other "reset",
          fun k _ => if k = 1 then some GoError.ErrClosed else none⟩ 7 = some t
      ∧ readsOf t ≤ 3 :=
  ⟨by decide,
   handleConnection_terminates ⟨[97, 10, 98, 10, 99], GoError.other "reset",
     fun k _ => if k = 1 then some GoError.ErrClosed else none⟩ 7 (by decide)⟩

/-! ## What follows a failure, and the close -/

theorem split_at_event (t pre post : List Event) (e : Event) (ht : t = pre ++ e :: post) :
    t[pre.length]? = some e ∧ t.drop (pre.length + 1) = post := by
  subst ht
  constructor
  · rw [List.getElem?_append_right (le_refl _)]
    simp
  · have h : (pre ++ e :: post) = (pre ++ [e]) ++ post := by simp
    rw [h]
    have hl : pre.length + 1 = (pre ++ [e]).length := by simp
    rw [hl, List.drop_left]

theorem before_close (u : List Event) (i : Nat) (e : Event) (hne : e ≠ Event.close)
    (h : (u ++ [Event.close])[i]? = some e) :
    u[i]? = some e ∧ (u ++ [Event.close]).drop (i + 1) = u.drop (i + 1) ++ [Event.close] := by
  have hi : i < u.length := by
    by_contra hge
    have hge2 : u.length ≤ i := by omega
    rw [List.getElem?_append_right hge2] at h
    rcases Nat.eq_zero_or_pos (i - u.length) with h0 | hpos
    · rw [h0] at h
      simp at h
      exact hne h.symm
    · obtain ⟨j, hj⟩ : ∃ j, i - u.length = j + 1 := ⟨i - u.length - 1, by omega⟩
      rw [hj] at h
      simp at h
  constructor
  · rw [List.getElem?_append_left hi] at h
    exact h
  · rw [List.drop_append_of_le_length (by omega)]

theorem handleConnection_some (c : Conn) (fuel : Nat) (t : List Event)
    (h : handleConnection c fuel = some t) :
    ∃ u, handleLoop c fuel c.input 0 = some u ∧ t = u ++ [Event.close] := by
  unfold handleConnection at h
  cases hu : handleLoop c fuel c.input 0 with
  | none => rw [hu] at h; simp at h
  | some u =>
    rw [hu] at h
    simp only [Option.map_some', Option.some.injEq] at h
    exact ⟨u, rfl, h.symm⟩

/-- In a trace of the loop, a read that fails is followed by the failure line
when the error is not `io.EOF`, and by nothing else. -/
theorem handleLoop_after_failed_read (c : Conn) (fuel k : Nat) (buf : List Byte)
    (t : List Event) (h : handleLoop c fuel buf k = some t) (i : Nat) (d : List Byte)
    (err : GoError) (hi : t[i]? = some (Event.read d (some err))) :
    t.drop (i + 1) =
      if err = GoError.EOF then []
      else [Event.stdout (Println [bytesOf "failed to read data, err:", err.Error])] := by
  induction fuel generalizing buf k t i with
  | zero => simp [handleLoop] at h
  | succ f ih =>
    rcases handleLoop_cases c f k buf t h with
      ⟨he, _, rfl⟩ | ⟨he, _, rfl⟩ | ⟨body, rest, e, _, _, _, rfl⟩ | ⟨body, rest, u, _, _, _, hu, rfl⟩
    · rcases i with _ | i
      · simp at hi
        simp [← hi.2]
      · simp at hi
    · rcases i with _ | _ | i
      · simp at hi
        simp [← hi.2, he]
      · simp at hi
      · simp at hi
    · rcases i with _ | _ | _ | _ | _ | i <;> simp [beforeWrite] at hi
    · rw [echoRound_eq] at hi ⊢
      rcases i with _ | _ | _ | _ | _ | i
      · simp at hi
      · simp at hi
      · simp at hi
      · simp at hi
      · simp at hi
      · simp only [List.cons_append, List.nil_append, List.getElem?_cons_succ] at hi
        simpa using ih (k + 1) rest u hu i hi

/-- In a trace of the loop, a write that fails is followed by the failure line
and by nothing else. -/
theorem handleLoop_after_failed_write (c : Conn) (fuel k : Nat) (buf : List Byte)
    (t : List Event) (h : handleLoop c fuel buf k = some t) (i : Nat) (d : List Byte)
    (err : GoError) (hi : t[i]? = some (Event.write d (some err))) :
    t.drop (i + 1) =
      [Event.stdout (Println [bytesOf "failed to write data, err:", err.Error])] := by
  induction fuel generalizing buf k t i with
  | zero => simp [handleLoop] at h
  | succ f ih =>
    rcases handleLoop_cases c f k buf t h with
      ⟨he, _, rfl⟩ | ⟨he, _, rfl⟩ | ⟨body, rest, e, _, _, _, rfl⟩ | ⟨body, rest, u, _, _, _, hu, rfl⟩
    · rcases i with _ | i <;> simp at hi
    · rcases i with _ | _ | i <;> simp at hi
    · rcases i with _ | _ | _ | _ | _ | i
      · simp [beforeWrite] at hi
      · simp [beforeWrite] at hi
      · simp [beforeWrite] at hi
      · simp [beforeWrite] at hi
        simp [beforeWrite, ← hi.2]
      · simp [beforeWrite] at hi
      · simp [beforeWrite] at hi
    · rw [echoRound_eq] at hi ⊢
      rcases i with _ | _ | _ | _ | _ | i
      · simp at hi
      · simp at hi
      · simp at hi
      · simp at hi
      · simp at hi
      · simp only [List.cons_append, List.nil_append, List.getElem?_cons_succ] at hi
        simpa using ih (k + 1) rest u hu i hi

/-- The loop itself never closes the connection. -/
theorem handleLoop_no_close (c : Conn) (fuel k : Nat) (buf : List Byte) (t : List Event)
    (h : handleLoop c fuel buf k = some t) : Event.close ∉ t := by
  induction fuel generalizing buf k t with
  | zero => simp [handleLoop] at h
  | succ f ih =>
    rcases handleLoop_cases c f k buf t h with
      ⟨he, _, rfl⟩ | ⟨he, _, rfl⟩ | ⟨body, rest, e, _, _, _, rfl⟩ | ⟨body, rest, u, _, _, _, hu, rfl⟩
    · simp
    · simp
    · simp [beforeWrite]
    · have hu2 := ih (k + 1) rest u hu
      simp [echoRound_eq, hu2]

/-- C4: in every trace of `handleConnection`, what follows a read that fails
with the error `err` is: the line `failed to read data, err: ...` when `err`
is not `io.EOF` and nothing when it is, then the close.  So no write follows
the failed read, and the failure line is printed if and only if the error is
not end-of-stream.  In particular, on a connection whose peer sends nothing
before end-of-stream the handler performs that one read and the close. -/
theorem handleConnection_read_failure (c : Conn) (fuel : Nat) (t pre post : List Event)
    (d : List Byte) (err : GoError) (h : handleConnection c fuel = some t)
    (ht : t = pre ++ Event.read d (some err) :: post) :
    post = (if err = GoError.EOF then []
            else [Event.stdout (Println [bytesOf "failed to read data, err:", err.Error])])
           ++ [Event.close]
    ∧ writesOf post = []
    ∧ (Event.stdout (Println [bytesOf "failed to read data, err:", err.Error]) ∈ post
        ↔ err ≠ GoError.EOF)
    ∧ ∀ (w : Nat → List Byte → Option GoError) (n : Nat),
        handleConnection ⟨[], GoError.EOF, w⟩ (n + 1)
          = some [Event.read [] (some GoError.EOF), Event.close] := by
  obtain ⟨u, hu, rfl⟩ := handleConnection_some c fuel t h
  obtain ⟨hget, hdrop⟩ := split_at_event _ pre post _ ht
  obtain ⟨hget2, hdrop2⟩ := before_close u pre.length _ (by simp) hget
  have hpost : post = (if err = GoError.EOF then []
      else [Event.stdout (Println [bytesOf "failed to read data, err:", err.Error])])
      ++ [Event.close] := by
    rw [← hdrop, hdrop2, handleLoop_after_failed_read c fuel 0 c.input u hu _ d err hget2]
  refine ⟨hpost, ?_, ?_, ?_⟩
  · rw [hpost]
    by_cases he : err = GoError.EOF <;> simp [he, writesOf]
  · rw [hpost]
    by_cases he : err = GoError.EOF <;> simp [he]
  · intro w n
    simp [handleConnection, handleLoop_frag]

/-- Witness of C4: a connection reset after one line and two more bytes. -/
theorem handleConnection_read_failure_witness :
    handleConnection ⟨[97, 10, 98, 99], GoError.other "reset", fun _ _ => none⟩ 2
      = some (echoRound [97, 10]
          ++ Event.read [98, 99] (some (GoError.other "reset"))
            :: [Event.stdout (bytesOf "failed to read data, err: reset\n"), Event.close])
    ∧ [Event.stdout (bytesOf "failed to read data, err: reset\n"), Event.close]
      = (if GoError.other "reset" = GoError.EOF then []
          else [Event.stdout
            (Println [bytesOf "failed to read data, err:", (GoError.other "reset").Error])])
        ++ [Event.close] :=
  ⟨by decide,
   (handleConnection_read_failure ⟨[97, 10, 98, 99], GoError.other "reset", fun _ _ => none⟩ 2
      _ (echoRound [97, 10])
      [Event.stdout (bytesOf "failed to read data, err: reset\n"), Event.close]
      [98, 99] (GoError.other "reset") (by decide) rfl).1⟩

/-- C5: in every trace of `handleConnection`, whatever the input and the
bytes still unread, what follows a write that fails with the error `err` is
the line `failed to write data, err: ...` and then the close: the write is
not tried again, and no read and no write follows it. -/
theorem handleConnection_write_failure (c : Conn) (fuel : Nat) (t pre post : List Event)
    (d : List Byte) (err : GoError) (h : handleConnection c fuel = some t)
    (ht : t = pre ++ Event.write d (some err) :: post) :
    post = [Event.stdout (Println [bytesOf "failed to write data, err:", err.Error]),
            Event.close]
    ∧ writesOf post = []
    ∧ readsOf post = 0 := by
  obtain ⟨u, hu, rfl⟩ := handleConnection_some c fuel t h
  obtain ⟨hget, hdrop⟩ := split_at_event _ pre post _ ht
  obtain ⟨hget2, hdrop2⟩ := before_close u pre.length _ (by simp) hget
  have hpost : post =
      [Event.stdout (Println [bytesOf "failed to write data, err:", err.Error]),
       Event.close] := by
    rw [← hdrop, hdrop2, handleLoop_after_failed_write c fuel 0 c.input u hu _ d err hget2]
    rfl
  refine ⟨hpost, ?_, ?_⟩
  · rw [hpost]; rfl
  · rw [hpost]; rfl

/-- Witness of C5: the first write fails while two more lines are unread. -/
theorem handleConnection_write_failure_witness :
    handleConnection ⟨[97, 10, 98, 10, 99, 10], GoError.EOF, fun _ _ => some (GoError.other "pipe")⟩ 4
      = some (beforeWrite [97, 10]
          ++ Event.write (bytesOf "Echo: a\n") (some (GoError.other "pipe"))
            :: [Event.stdout
                  (bytesOf "failed to write data, err: pipe\n"),
                Event.close])
    ∧ [Event.stdout (bytesOf "failed to write data, err: pipe\n"),
       Event.close]
      = [Event.stdout (Println [bytesOf "failed to write data, err:", (GoError.other "pipe").Error]),
         Event.close] :=
  ⟨by decide,
   (handleConnection_write_failure
      ⟨[97, 10, 98, 10, 99, 10], GoError.EOF, fun _ _ => some (GoError.other "pipe")⟩ 4
      _ (beforeWrite [97, 10])
      [Event.stdout (bytesOf "failed to write data, err: pipe\n"),
       Event.close]
      (bytesOf "Echo: a\n") (GoError.other "pipe") (by decide) rfl).1⟩

/-- C6: every trace of `handleConnection`, whichever way the loop was left
(end-of-stream, another read error, a write error), is a trace of the loop
without any close, followed by one close: the connection is closed exactly
once, and the close is the last operation of the trace.  Such a trace exists
for every connection: the handler returns within one iteration per newline
of the input, plus one. -/
theorem handleConnection_closes_once (c : Conn) (fuel : Nat) (t : List Event)
    (h : handleConnection c fuel = some t) :
    (∃ ops, t = ops ++ [Event.close] ∧ Event.close ∉ ops)
    ∧ t.count Event.close = 1
    ∧ t.getLast? = some Event.close
    ∧ ∃ t0, handleConnection c (List.count (10 : Byte) c.input + 1) = some t0 := by
  obtain ⟨u, hu, rfl⟩ := handleConnection_some c fuel t h
  have hno := handleLoop_no_close c fuel 0 c.input u hu
  refine ⟨⟨u, rfl, hno⟩, ?_, by simp, ?_⟩
  · rw [List.count_append, List.count_eq_zero_of_not_mem hno]
    simp
  · obtain ⟨v, hv, _⟩ :=
      handleLoop_terminates c (List.count (10 : Byte) c.input + 1) 0 c.input (le_refl _)
    exact ⟨v ++ [Event.close], by simp [handleConnection, hv]⟩

/-- Witness of C6: the three ways out of the loop. -/
theorem handleConnection_closes_once_witness :
    (List.count Event.close
        [Event.read [120] (some GoError.EOF), Event.close] = 1)
    ∧ handleConnection ⟨[120], GoError.other "reset", fun _ _ => none⟩ 1
        = some [Event.read [120] (some (GoError.other "reset")),
                Event.stdout (bytesOf "failed to read data, err: reset\n"), Event.close]
    ∧ handleConnection ⟨[120, 10], GoError.EOF, fun _ _ => some (GoError.other "pipe")⟩ 1
        = some (beforeWrite [120, 10] ++
            [Event.write (bytesOf "Echo: x\n") (some (GoError.other "pipe")),
             Event.stdout
               (bytesOf "failed to write data, err: pipe\n"),
             Event.close]) :=
  ⟨(handleConnection_closes_once ⟨[120], GoError.EOF, fun _ _ => none⟩ 1
      [Event.read [120] (some GoError.EOF), Event.close] (by decide)).2.1,
   by decide, by decide⟩

/-! ## The claims on `main` -/

theorem acceptCalls_acceptLoop (rs : List AcceptResult) : acceptCalls (acceptLoop rs) = rs := by
  induction rs with
  | nil => rfl
  | cons r rs ih => cases r <;> simp [acceptLoop, acceptCalls, ih]

theorem acceptLoop_append (rs ss : List AcceptResult) :
    acceptLoop (rs ++ ss) = acceptLoop rs ++ acceptLoop ss := by
  induction rs with
  | nil => rfl
  | cons r rs ih => cases r <;> simp [acceptLoop, ih]

theorem acceptLoop_no_exit (rs : List AcceptResult) (code : Nat) :
    MainEvent.exit code ∉ acceptLoop rs := by
  induction rs with
  | nil => simp [acceptLoop]
  | cons r rs ih => cases r <;> simp [acceptLoop, ih]

theorem Sprintf_port (a : List Byte) : Sprintf (bytesOf ":%s") [a] = 58 :: a := by
  have h : Sprintf (bytesOf ":%s") [a] = 58 :: (a ++ []) := rfl
  rw [h, List.append_nil]

theorem Sprintf_listening (a : List Byte) :
    Sprintf (bytesOf "Listening on port %s...\n") [a]
      = bytesOf "Listening on port " ++ (a ++ bytesOf "...\n") := rfl

/-- Counterexample to C7: on a closed listener, whose every `Accept` fails
with the terminal error, three outcomes are consumed by three calls of
`Accept`: after the first terminal error the loop logs it and calls `Accept`
again, it does not exit. -/
theorem acceptLoop_closed_listener_calls_accept_again :
    acceptLoop [AcceptResult.error GoError.ErrClosed, AcceptResult.error GoError.ErrClosed,
        AcceptResult.error GoError.ErrClosed]
      = [MainEvent.accept (AcceptResult.error GoError.ErrClosed),
         MainEvent.stdout
           (Println [bytesOf "failed to accept connection, err:", GoError.ErrClosed.Error]),
         MainEvent.accept (AcceptResult.error GoError.ErrClosed),
         MainEvent.stdout
           (Println [bytesOf "failed to accept connection, err:", GoError.ErrClosed.Error]),
         MainEvent.accept (AcceptResult.error GoError.ErrClosed),
         MainEvent.stdout
           (Println [bytesOf "failed to accept connection, err:", GoError.ErrClosed.Error])]
    ∧ acceptCalls (acceptLoop [AcceptResult.error GoError.ErrClosed,
        AcceptResult.error GoError.ErrClosed, AcceptResult.error GoError.ErrClosed])
      ≠ [AcceptResult.error GoError.ErrClosed] := by
  constructor
  · rfl
  · rw [acceptCalls_acceptLoop]
    decide

/-- C7, amended: when `Accept` fails because the listener has been closed, the
accept loop of `main` does what it does for every accept error: it prints the
failure line and goes on to the next call of `Accept`.  On a listener that
stays closed it calls `Accept` once per outcome, however many there are, and
no `os.Exit` occurs in the loop. -/
theorem acceptLoop_closed_listener_continues (n : Nat) (rs : List AcceptResult) :
    acceptLoop (AcceptResult.error GoError.ErrClosed :: rs)
      = MainEvent.accept (AcceptResult.error GoError.ErrClosed)
        :: MainEvent.stdout
            (Println [bytesOf "failed to accept connection, err:", GoError.ErrClosed.Error])
        :: acceptLoop rs
    ∧ acceptCalls (acceptLoop (List.replicate n (AcceptResult.error GoError.ErrClosed)))
      = List.replicate n (AcceptResult.error GoError.ErrClosed)
    ∧ ∀ code, MainEvent.exit code ∉ acceptLoop (AcceptResult.error GoError.ErrClosed :: rs) :=
  ⟨rfl, acceptCalls_acceptLoop _, fun code => acceptLoop_no_exit _ code⟩

/-- C8: for every finite sequence `rs` of accept outcomes, the accept loop of
`main` calls `Accept` once per outcome, whatever errors occur among them (no
error stops the loop or makes it skip an outcome), prints one failure line
per error, and starts a handler for exactly the accepted connections, one
each, in accept order.  The loop over a sequence that continues another is
the loop over the first followed by the loop over the second. -/
theorem acceptLoop_dispatches_accepted (rs ss : List AcceptResult) :
    acceptCalls (acceptLoop rs) = rs
    ∧ dispatched (acceptLoop rs)
        = rs.filterMap (fun r => match r with
            | AcceptResult.conn id => some id
            | AcceptResult.error _ => none)
    ∧ printed (acceptLoop rs)
        = rs.filterMap (fun r => match r with
            | AcceptResult.conn _ => none
            | AcceptResult.error err =>
              some (Println [bytesOf "failed to accept connection, err:", err.Error]))
    ∧ acceptLoop (rs ++ ss) = acceptLoop rs ++ acceptLoop ss := by
  refine ⟨acceptCalls_acceptLoop rs, ?_, ?_, acceptLoop_append rs ss⟩
  · induction rs with
    | nil => rfl
    | cons r rs ih => cases r <;> simp [acceptLoop, dispatched, ih]
  · induction rs with
    | nil => rfl
    | cons r rs ih => cases r <;> simp [acceptLoop, printed, ih]

/-- C9: for every argument vector `args` (`os.Args`), every outcome of
`net.Listen` and every sequence of accept outcomes: when the port argument is
missing, `main` prints the usage line and exits with status 1, without any
call of `net.Listen` or `Accept`; when `net.Listen("tcp", ":" + args[1])`
fails, `main` prints the failure line and exits with status 1, without any
call of `Accept`; otherwise `main` prints the address it listens on and runs
the accept loop, and no `os.Exit` occurs. -/
theorem main_startup (args : List (List Byte))
    (listen : List Byte → List Byte → ListenResult) (accepts : List AcceptResult) :
    (args.length < 2 →
      main args listen accepts
        = [MainEvent.stdout (bytesOf "Usage: go run main.go <port>\n"), MainEvent.exit 1]
      ∧ acceptCalls (main args listen accepts) = [])
    ∧ (∀ err, 2 ≤ args.length →
        listen (bytesOf "tcp") (58 :: args.getD 1 []) = ListenResult.error err →
        main args listen accepts
          = [MainEvent.listen (bytesOf "tcp") (58 :: args.getD 1 []),
             MainEvent.stdout (Println [bytesOf "failed to create listener, err:", err.Error]),
             MainEvent.exit 1]
        ∧ acceptCalls (main args listen accepts) = [])
    ∧ (∀ addr, 2 ≤ args.length →
        listen (bytesOf "tcp") (58 :: args.getD 1 []) = ListenResult.ok addr →
        main args listen accepts
          = MainEvent.listen (bytesOf "tcp") (58 :: args.getD 1 [])
            :: MainEvent.stdout (bytesOf "Listening on port " ++ (addr ++ bytesOf "...\n"))
            :: acceptLoop accepts
        ∧ acceptCalls (main args listen accepts) = accepts
        ∧ ∀ code, MainEvent.exit code ∉ main args listen accepts) := by
  have husage : Println [bytesOf "Usage: go run main.go <port>"]
      = bytesOf "Usage: go run main.go <port>\n" := by decide
  refine ⟨?_, ?_, ?_⟩
  · intro h
    have hm : main args listen accepts
        = [MainEvent.stdout (bytesOf "Usage: go run main.go <port>\n"), MainEvent.exit 1] := by
      simp only [main, h, if_true, husage]
    exact ⟨hm, by rw [hm]; rfl⟩
  · intro err h hl
    have hm : main args listen accepts
        = [MainEvent.listen (bytesOf "tcp") (58 :: args.getD 1 []),
           MainEvent.stdout (Println [bytesOf "failed to create listener, err:", err.Error]),
           MainEvent.exit 1] := by
      simp only [main, Nat.not_lt.mpr h, if_false, Sprintf_port, hl]
    exact ⟨hm, by rw [hm]; rfl⟩
  · intro addr h hl
    have hm : main args listen accepts
        = MainEvent.listen (bytesOf "tcp") (58 :: args.getD 1 [])
          :: MainEvent.stdout (bytesOf "Listening on port " ++ (addr ++ bytesOf "...\n"))
          :: acceptLoop accepts := by
      simp only [main, Nat.not_lt.mpr h, if_false, Sprintf_port, hl, Sprintf_listening]
    refine ⟨hm, ?_, ?_⟩
    · rw [hm]
      simp only [acceptCalls]
      exact acceptCalls_acceptLoop accepts
    · intro code
      rw [hm]
      simp [acceptLoop_no_exit]

/-- Witness of C9: no argument; a port whose bind fails; a port whose bind
succeeds, then one accept error and one connection. -/
theorem main_startup_witness :
    main [bytesOf "echo"] (fun _ _ => ListenResult.ok (bytesOf "[::]:9")) []
      = [MainEvent.stdout (bytesOf "Usage: go run main.go <port>\n"), MainEvent.exit 1]
    ∧ main [bytesOf "echo", bytesOf "80"]
        (fun _ _ => ListenResult.error (GoError.other "denied")) [AcceptResult.conn 3]
      = [MainEvent.listen (bytesOf "tcp") (bytesOf ":80"),
         MainEvent.stdout (bytesOf "failed to create listener, err: denied\n"),
         MainEvent.exit 1]
    ∧ main [bytesOf "echo", bytesOf "9"] (fun _ _ => ListenResult.ok (bytesOf "[::]:9"))
        [AcceptResult.error (GoError.other "busy"), AcceptResult.conn 3]
      = [MainEvent.listen (bytesOf "tcp") (bytesOf ":9"),
         MainEvent.stdout (bytesOf "Listening on port [::]:9...\n"),
         MainEvent.accept (AcceptResult.error (GoError.other "busy")),
         MainEvent.stdout (bytesOf "failed to accept connection, err: busy\n"),
         MainEvent.accept (AcceptResult.conn 3),
         MainEvent.go 3] :=
  ⟨((main_startup [bytesOf "echo"] (fun _ _ => ListenResult.ok (bytesOf "[::]:9")) []).1
      (by decide)).1,
   ((main_startup [bytesOf "echo", bytesOf "80"]
      (fun _ _ => ListenResult.error (GoError.other "denied")) [AcceptResult.conn 3]).2.1
      (GoError.other "denied") (by decide) rfl).1,
   ((main_startup [bytesOf "echo", bytesOf "9"] (fun _ _ => ListenResult.ok (bytesOf "[::]:9"))
      [AcceptResult.error (GoError.other "busy"), AcceptResult.conn 3]).2.2
      (bytesOf "[::]:9") (by decide) rfl).1⟩

end EchoServer
